import Mathlib

/-!
Shallow embedding of the SISAP-PoC certificate-transparency monitor core
(Go sources under backend/): the MerkleTreeLeaf parser
(internal/service/ctlog/parser.go), the keyword matcher
(internal/service/matcher), the idempotent match insertion
(internal/repository/certificate.go) and the monitor tick
(internal/service/monitor/monitor.go).

Go strings are modelled as lists of characters, byte buffers as lists of
natural numbers, Go int and int64 as Int where signed arithmetic matters
and Nat for pure counts.  The external x509 DER decoder is an abstract
parameter.
-/

namespace SISAP

abbrev Bytes := List Nat
abbrev GoStr := List Char

/-! ## Leaf parser (internal/service/ctlog/parser.go) -/

/-- Fields the Go code reads off the decoded x509 certificate object
returned by x509.ParseCertificate (an external library call, abstracted). -/
structure CertFields where
  serialHex : GoStr
  subjectCN : GoStr
  dnsNames : List GoStr
  issuerCN : GoStr
  issuerOrgs : List GoStr
  notBefore : Int
  notAfter : Int
deriving DecidableEq

/-- ParsedCertificate from parser.go (timestamps modelled as numbers). -/
structure ParsedCertificate where
  timestamp : Nat
  serial : GoStr
  commonName : GoStr
  sans : List GoStr
  issuer : GoStr
  notBefore : Int
  notAfter : Int
deriving DecidableEq

/-- Error taxonomy of parser.go: ErrTooShort, ErrUnknownType (wrapped with
the offending entry type), ErrParseFailed. -/
inductive ParseError where
  | TooShort : ParseError
  | UnknownType : Nat → ParseError
  | ParseFailed : ParseError
deriving DecidableEq

/-- Read one byte of a buffer; the default 0 is never reached on the
paths the parser takes, because every access is behind a length check. -/
def byteAt (l : Bytes) (i : Nat) : Nat := l.getD i 0

/-- readUint24 from parser.go: 3-byte big-endian unsigned integer. -/
def readUint24 (b0 b1 b2 : Nat) : Nat := b0 * 65536 + b1 * 256 + b2

/-- Bytes 10..11 of leaf input, big-endian: the entry type. -/
def entryTypeOf (data : Bytes) : Nat := byteAt data 10 * 256 + byteAt data 11

/-- Bytes 2..9 of leaf input, big-endian: the leaf timestamp. -/
def timestampOf (data : Bytes) : Nat :=
  (List.range 8).foldl (fun acc k => acc * 256 + byteAt data (2 + k)) 0

/-- The 24-bit certificate length at bytes 12..14 of an x509 entry. -/
def x509CertLen (data : Bytes) : Nat :=
  readUint24 (byteAt data 12) (byteAt data 13) (byteAt data 14)

/-- The 24-bit certificate length at bytes 0..2 of precert extra data. -/
def precertLen (extra : Bytes) : Nat :=
  readUint24 (byteAt extra 0) (byteAt extra 1) (byteAt extra 2)

/-- Go slice l[off : off+len] (only taken after the bounds were checked). -/
def slice (l : Bytes) (off len : Nat) : Bytes := (l.drop off).take len

/-- The abstract DER decoder standing for x509.ParseCertificate: none is a
decode failure, some returns the certificate fields the Go code reads. -/
def Decoder : Type := Bytes → Option CertFields

/-- Lines 169-181 of parser.go: issuer is the issuer CN, or the first
issuer organization when the CN is empty, and the record is assembled. -/
def mkParsed (ts : Nat) (c : CertFields) : ParsedCertificate :=
  let issuer :=
    if c.issuerCN.isEmpty then
      match c.issuerOrgs with
      | [] => []
      | o :: _ => o
    else c.issuerCN
  { timestamp := ts
    serial := c.serialHex
    commonName := c.subjectCN
    sans := c.dnsNames
    issuer := issuer
    notBefore := c.notBefore
    notAfter := c.notAfter }

/-- Lines 164-183 of parser.go: run the DER decoder on the extracted
certificate bytes; a decode failure becomes ErrParseFailed. -/
def parseResult (d : Decoder) (ts : Nat) (der : Bytes) :
    Except ParseError ParsedCertificate :=
  match d der with
  | none => Except.error ParseError.ParseFailed
  | some c => Except.ok (mkParsed ts c)

/-- ParseLeafInput from parser.go (two-argument version, lines 127-183):
header checks, entry-type dispatch, certificate extraction, DER decode. -/
def ParseLeafInput (d : Decoder) (data extraData : Bytes) :
    Except ParseError ParsedCertificate :=
  if data.length < 15 then Except.error ParseError.TooShort
  else
    let entryType := entryTypeOf data
    if entryType = 0 then
      let certLen := x509CertLen data
      if data.length < 15 + certLen then Except.error ParseError.TooShort
      else parseResult d (timestampOf data) (slice data 15 certLen)
    else if entryType = 1 then
      if extraData.length < 3 then Except.error ParseError.TooShort
      else
        let certLen := precertLen extraData
        if extraData.length < 3 + certLen then Except.error ParseError.TooShort
        else parseResult d (timestampOf data) (slice extraData 3 certLen)
    else Except.error (ParseError.UnknownType entryType)

/-! ## Matcher (internal/service/matcher, appears in cmd/server/main.go) -/

/-- Keyword from internal/model (creation timestamp not modelled). -/
structure Keyword where
  id : Int
  value : GoStr
deriving DecidableEq

/-- MatchResult from the matcher package. -/
structure MatchResult where
  keywordID : Int
  matchedDomain : GoStr
deriving DecidableEq

/-- strings.ToLower, modelled character-wise. -/
def toLowerStr (s : GoStr) : GoStr := s.map Char.toLower

/-- strings.Contains: substring containment. -/
def containsStr (s sub : GoStr) : Bool := decide (sub <:+: s)

/-- Match from the matcher package: for each keyword in order, check the
common name first, then the SANs in order, appending at most one result. -/
def Match (cert : ParsedCertificate) (keywords : List Keyword) : List MatchResult :=
  keywords.foldl
    (fun results kw =>
      let lower := toLowerStr kw.value
      if !cert.commonName.isEmpty && containsStr (toLowerStr cert.commonName) lower then
        results ++ [{ keywordID := kw.id, matchedDomain := cert.commonName }]
      else
        match cert.sans.find? (fun san => containsStr (toLowerStr san) lower) with
        | some san => results ++ [{ keywordID := kw.id, matchedDomain := san }]
        | none => results)
    []

/-- Modelled from the spec wording of section 4.3: the result a single
keyword contributes — the original-case CN when the CN is non-empty and
its lower-casing contains the lower-cased keyword, else the first SAN
whose lower-casing contains the lower-cased keyword, else nothing. -/
def matchKeywordSpec (cert : ParsedCertificate) (kw : Keyword) : Option MatchResult :=
  if !cert.commonName.isEmpty && containsStr (toLowerStr cert.commonName) (toLowerStr kw.value) then
    some { keywordID := kw.id, matchedDomain := cert.commonName }
  else
    match cert.sans.find? (fun san => containsStr (toLowerStr san) (toLowerStr kw.value)) with
    | some san => some { keywordID := kw.id, matchedDomain := san }
    | none => none

theorem Match_foldl_append (cert : ParsedCertificate) (kws : List Keyword)
    (acc : List MatchResult) :
    kws.foldl
      (fun results kw =>
        let lower := toLowerStr kw.value
        if !cert.commonName.isEmpty && containsStr (toLowerStr cert.commonName) lower then
          results ++ [{ keywordID := kw.id, matchedDomain := cert.commonName }]
        else
          match cert.sans.find? (fun san => containsStr (toLowerStr san) lower) with
          | some san => results ++ [{ keywordID := kw.id, matchedDomain := san }]
          | none => results)
      acc
    = acc ++ kws.filterMap (matchKeywordSpec cert) := by
  induction kws generalizing acc with
  | nil => simp
  | cons kw rest ih =>
    simp only [List.foldl_cons, List.filterMap_cons]
    rcases h1 : (!cert.commonName.isEmpty && containsStr (toLowerStr cert.commonName) (toLowerStr kw.value)) with _ | _
    · rcases h2 : cert.sans.find? (fun san => containsStr (toLowerStr san) (toLowerStr kw.value)) with _ | san
      · simp only [matchKeywordSpec, h1, h2, ih]
        simp
      · simp only [matchKeywordSpec, h1, h2, ih]
        simp
    · simp only [matchKeywordSpec, h1, ih]
      simp

theorem containsStr_nil (s : GoStr) : containsStr s [] = true := by
  simp only [containsStr, decide_eq_true_eq]
  exact List.nil_infix

theorem Match_singleton (cert : ParsedCertificate) (kw : Keyword) :
    Match cert [kw] = (matchKeywordSpec cert kw).toList := by
  have h := Match_foldl_append cert [kw] []
  simp only [Match]
  rw [h]
  cases hk : matchKeywordSpec cert kw <;> simp [hk]

/-- Concrete certificate used by witnesses. -/
def exCert : ParsedCertificate where
  timestamp := 0
  serial := ['0','1']
  commonName := ['a','B']
  sans := [['c','d'], ['e']]
  issuer := []
  notBefore := 0
  notAfter := 0

example : Match exCert [{ id := 1, value := ['b'] }]
    = [{ keywordID := 1, matchedDomain := ['a','B'] }] := by
  decide

/-- C2: for every certificate and ordered keyword list, Match equals the
filterMap of the per-keyword spec rule, hence emits at most one result
per keyword, in keyword order, with the original-case CN winning over the
SANs and the earliest SAN winning among the SANs; being a Lean function
of its two arguments it is pure, deterministic and total. -/
theorem Match_eq_filterMap (cert : ParsedCertificate) (kws : List Keyword) :
    Match cert kws = kws.filterMap (matchKeywordSpec cert) := by
  have h := Match_foldl_append cert kws []
  simp only [Match]
  rw [h]
  simp

/-- C10: a keyword whose value is the empty string always matches — the
certificate CN is emitted when the CN is non-empty, else the first SAN
when one exists, and nothing is emitted only when the CN is empty and the
SAN list is empty. -/
theorem Match_empty_keyword (cert : ParsedCertificate) (kw : Keyword)
    (hkw : kw.value = []) :
    (cert.commonName ≠ [] →
        Match cert [kw] = [{ keywordID := kw.id, matchedDomain := cert.commonName }])
    ∧ (cert.commonName = [] → ∀ s rest, cert.sans = s :: rest →
        Match cert [kw] = [{ keywordID := kw.id, matchedDomain := s }])
    ∧ (cert.commonName = [] → cert.sans = [] → Match cert [kw] = []) := by
  have hm := Match_singleton cert kw
  refine ⟨?_, ?_, ?_⟩
  · intro hcn
    rw [hm]
    have hne : cert.commonName.isEmpty = false := by
      cases hc : cert.commonName with
      | nil => exact absurd hc hcn
      | cons a l => simp
    simp [matchKeywordSpec, hkw, toLowerStr, hne, containsStr_nil]
  · intro hcn s rest hsans
    rw [hm]
    simp [matchKeywordSpec, hkw, toLowerStr, hcn, hsans, containsStr_nil]
  · intro hcn hsans
    rw [hm]
    simp [matchKeywordSpec, hkw, toLowerStr, hcn, hsans]

/-- C3: the parser is strict about lengths — a leaf input shorter than 15
bytes, an x509 entry whose declared certificate length overruns the leaf
input, or a precert entry whose extra data is shorter than 3 bytes or
whose declared length overruns the extra data, all yield TooShort, so no
buffer access is ever out of bounds. -/
theorem ParseLeafInput_strict (d : Decoder) (data extra : Bytes) :
    (data.length < 15 → ParseLeafInput d data extra = Except.error ParseError.TooShort)
    ∧ (15 ≤ data.length → entryTypeOf data = 0 → data.length < 15 + x509CertLen data →
        ParseLeafInput d data extra = Except.error ParseError.TooShort)
    ∧ (15 ≤ data.length → entryTypeOf data = 1 → extra.length < 3 →
        ParseLeafInput d data extra = Except.error ParseError.TooShort)
    ∧ (15 ≤ data.length → entryTypeOf data = 1 → extra.length < 3 + precertLen extra →
        ParseLeafInput d data extra = Except.error ParseError.TooShort) := by
  refine ⟨?_, ?_, ?_, ?_⟩
  · intro h
    simp [ParseLeafInput, h]
  · intro h15 het hlen
    simp [ParseLeafInput, Nat.not_lt.mpr h15, het, hlen]
  · intro h15 het hx
    simp [ParseLeafInput, Nat.not_lt.mpr h15, het, hx]
  · intro h15 het hx
    by_cases h3 : extra.length < 3
    · simp [ParseLeafInput, Nat.not_lt.mpr h15, het, h3]
    · simp [ParseLeafInput, Nat.not_lt.mpr h15, het, h3, hx]

/-- C4: dispatch of a well-formed leaf input — an x509 entry hands the
decoder exactly the declared slice of the leaf input and ignores the
extra data; a precert entry hands the decoder exactly the declared slice
of the extra data; any other entry type yields UnknownType; and a decode
failure yields ParseFailed. -/
theorem ParseLeafInput_dispatch (d : Decoder) (data extra : Bytes)
    (h15 : 15 ≤ data.length) :
    (entryTypeOf data = 0 → 15 + x509CertLen data ≤ data.length →
       (ParseLeafInput d data extra
          = parseResult d (timestampOf data) (slice data 15 (x509CertLen data))
        ∧ ∀ extra2, ParseLeafInput d data extra2 = ParseLeafInput d data extra))
    ∧ (entryTypeOf data = 1 → 3 ≤ extra.length → 3 + precertLen extra ≤ extra.length →
       ParseLeafInput d data extra
         = parseResult d (timestampOf data) (slice extra 3 (precertLen extra)))
    ∧ (entryTypeOf data ≠ 0 → entryTypeOf data ≠ 1 →
       ParseLeafInput d data extra = Except.error (ParseError.UnknownType (entryTypeOf data)))
    ∧ (∀ der, d der = none →
       parseResult d (timestampOf data) der = Except.error ParseError.ParseFailed) := by
  refine ⟨?_, ?_, ?_, ?_⟩
  · intro het hlen
    have hfit : ¬ data.length < 15 + x509CertLen data := Nat.not_lt.mpr hlen
    constructor
    · simp [ParseLeafInput, Nat.not_lt.mpr h15, het, hfit]
    · intro extra2
      simp [ParseLeafInput, Nat.not_lt.mpr h15, het, hfit]
  · intro het h3 hfit
    have h3f : ¬ extra.length < 3 := Nat.not_lt.mpr h3
    have hff : ¬ extra.length < 3 + precertLen extra := Nat.not_lt.mpr hfit
    simp [ParseLeafInput, Nat.not_lt.mpr h15, het, h3f, hff]
  · intro h0 h1
    simp [ParseLeafInput, Nat.not_lt.mpr h15, h0, h1]
  · intro der hder
    simp [parseResult, hder]

/-- Decoder that fails on every input (a DER decode failure). -/
def noCert : Decoder := fun _ => none

/-- Leaf input of an x509 entry: 17 bytes, entry type 0 at bytes 10..11,
declared certificate length 2 at bytes 12..14. -/
def wX509 : Bytes := [0, 0, 0, 0, 0, 0, 0, 0, 0, 0, 0, 0, 0, 0, 2, 9, 9]

/-- Leaf input of a precert entry: 15 bytes, entry type 1 at bytes 10..11. -/
def wPrecert : Bytes := [0, 0, 0, 0, 0, 0, 0, 0, 0, 0, 0, 1, 0, 0, 0]

theorem ParseLeafInput_strict_witness :
    ParseLeafInput noCert [0, 0, 0] [] = Except.error ParseError.TooShort
    ∧ ParseLeafInput noCert (wX509.take 15) [] = Except.error ParseError.TooShort
    ∧ ParseLeafInput noCert wPrecert [] = Except.error ParseError.TooShort
    ∧ ParseLeafInput noCert wPrecert [0, 0, 5] = Except.error ParseError.TooShort := by
  refine ⟨?_, ?_, ?_, ?_⟩
  · exact (ParseLeafInput_strict noCert [0, 0, 0] []).1 (by decide)
  · exact (ParseLeafInput_strict noCert (wX509.take 15) []).2.1 (by decide) (by decide)
      (by decide)
  · exact (ParseLeafInput_strict noCert wPrecert []).2.2.1 (by decide) (by decide)
      (by decide)
  · exact (ParseLeafInput_strict noCert wPrecert [0, 0, 5]).2.2.2 (by decide) (by decide)
      (by decide)

theorem ParseLeafInput_dispatch_witness :
    ParseLeafInput noCert wX509 [7]
      = parseResult noCert (timestampOf wX509) (slice wX509 15 (x509CertLen wX509))
    ∧ ParseLeafInput noCert wX509 [7] = Except.error ParseError.ParseFailed := by
  constructor
  · exact ((ParseLeafInput_dispatch noCert wX509 [7] (by decide)).1 (by decide)
      (by decide)).1
  · have h := ((ParseLeafInput_dispatch noCert wX509 [7] (by decide)).1 (by decide)
      (by decide)).1
    rw [h]
    rfl

theorem Match_empty_keyword_witness :
    Match exCert [{ id := 5, value := [] }]
      = [{ keywordID := 5, matchedDomain := exCert.commonName }] :=
  (Match_empty_keyword exCert { id := 5, value := [] } rfl).1 (by decide)

/-! ## Persisted state and idempotent match insertion
(internal/model, internal/repository/certificate.go) -/

/-- MatchedCertificate from internal/model (row id, keyword value and
discovery timestamp are store-assigned and not modelled). -/
structure MatchedCertificate where
  serialNumber : GoStr
  commonName : GoStr
  sans : List GoStr
  issuer : GoStr
  notBefore : Int
  notAfter : Int
  keywordID : Int
  matchedDomain : GoStr
  ctLogIndex : Int
deriving DecidableEq

/-- Models the effect on the matches table of Create in
internal/repository/certificate.go: INSERT ... ON CONFLICT
(serial_number, keyword_id) DO NOTHING.  When a row with the same
(serial, keyword) pair exists the table is unchanged and the call still
returns ok; otherwise the row is appended. -/
def insertMatch (table : List MatchedCertificate) (c : MatchedCertificate) :
    List MatchedCertificate :=
  if table.any (fun r => r.serialNumber == c.serialNumber && r.keywordID == c.keywordID) then
    table
  else table ++ [c]

/-- Number of rows of the table carrying a given (serial, keyword) pair. -/
def pairCount (table : List MatchedCertificate) (serial : GoStr) (kid : Int) : Nat :=
  (table.filter (fun r => r.serialNumber == serial && r.keywordID == kid)).length

/-! ## Monitor state and the tick (internal/service/monitor/monitor.go) -/

/-- MonitorState from internal/model (time-valued fields are
store-assigned on write and not modelled). -/
structure MonitorState where
  lastProcessedIndex : Int
  lastTreeSize : Int
  totalProcessed : Int
  certsInLastCycle : Int
  matchesInLastCycle : Int
  parseErrorsInLastCycle : Int
  isRunning : Bool
  lastError : String
deriving DecidableEq

/-- Signed tree head from the ctlog client (root hash not modelled). -/
structure STH where
  treeSize : Int
  timestamp : Int
deriving DecidableEq

/-- RawEntry from the ctlog client: one get-entries element. -/
structure RawEntry where
  leafInput : Bytes
  extraData : Bytes
deriving DecidableEq

/-- Static monitor configuration (interval not modelled: it only spaces
the ticks in time). -/
structure Config where
  batchSize : Int
  reprocessOnIdle : Bool

/-- Outcome of the external calls one tick can make: the STH fetch, the
progress read, the (single) get-entries call the tick performs, the
keyword list, and the DER decoder behind the leaf parser. -/
structure TickEnv where
  sth : Except String STH
  progress : Except String Unit
  entries : Except String (List RawEntry)
  keywords : Except String (List Keyword)
  decoder : Decoder

/-- Result of one tick: the persisted monitor state, the matches table,
and the range of the GetEntries call when one was made. -/
structure TickResult where
  state : MonitorState
  table : List MatchedCertificate
  fetchCall : Option (Int × Int)

/-- Lines 180-183 of monitor.go: start is the stored index, except that a
zero index starts near the tree head. -/
def computeStart (lpi treeSize batchSize : Int) : Int :=
  if lpi = 0 then max 0 (treeSize - batchSize) else lpi

/-- Line 184 of monitor.go: end clamps the batch to the tree size. -/
def computeEnd (start treeSize batchSize : Int) : Int :=
  min (start + batchSize - 1) (treeSize - 1)

/-- SetError of internal/repository/monitor.go: only last_error changes. -/
def setError (st : MonitorState) (msg : String) : MonitorState :=
  { st with lastError := msg }

/-- The updateState helper of monitor.go (lines 335-353): advance the
index to end + 1, record the observed tree size and the cycle counters;
the struct literal leaves LastError at its zero value, so Update writes
an empty last_error. -/
def updateState (prev : MonitorState) (endIndex treeSize : Int)
    (processed matchCount parseErrors : Nat) : MonitorState :=
  { lastProcessedIndex := endIndex + 1
    lastTreeSize := treeSize
    totalProcessed := prev.totalProcessed + (processed : Int)
    certsInLastCycle := (processed : Int)
    matchesInLastCycle := (matchCount : Int)
    parseErrorsInLastCycle := (parseErrors : Int)
    isRunning := true
    lastError := "" }

/-- The Update struct of the caught-up branches of monitor.go (lines
212-220 and 241-249): keep the index and the counters, refresh the tree
size; LastError is the zero value, so last_error is written empty. -/
def refreshState (prev : MonitorState) (treeSize : Int) : MonitorState :=
  { lastProcessedIndex := prev.lastProcessedIndex
    lastTreeSize := treeSize
    totalProcessed := prev.totalProcessed
    certsInLastCycle := prev.certsInLastCycle
    matchesInLastCycle := prev.matchesInLastCycle
    parseErrorsInLastCycle := prev.parseErrorsInLastCycle
    isRunning := true
    lastError := "" }

/-- The Update struct of the re-match branch of monitor.go (lines
286-294): keep the index, refresh tree size and cycle counters. -/
def rematchState (prev : MonitorState) (treeSize : Int)
    (processed matchCount parseErrors : Nat) : MonitorState :=
  { lastProcessedIndex := prev.lastProcessedIndex
    lastTreeSize := treeSize
    totalProcessed := prev.totalProcessed
    certsInLastCycle := (processed : Int)
    matchesInLastCycle := (matchCount : Int)
    parseErrorsInLastCycle := (parseErrors : Int)
    isRunning := true
    lastError := "" }

/-- The MatchedCertificate monitor.go builds for one match (lines
314-324). -/
def mkMatched (cert : ParsedCertificate) (m : MatchResult) (idx : Int) :
    MatchedCertificate :=
  { serialNumber := cert.serial
    commonName := cert.commonName
    sans := cert.sans
    issuer := cert.issuer
    notBefore := cert.notBefore
    notAfter := cert.notAfter
    keywordID := m.keywordID
    matchedDomain := m.matchedDomain
    ctLogIndex := idx }

/-- matchEntries of monitor.go (lines 299-333): parse each entry, count
parse failures, store each match idempotently, count stored matches. -/
def matchEntries (d : Decoder) (entries : List RawEntry) (batchStart : Int)
    (keywords : List Keyword) (table : List MatchedCertificate) :
    List MatchedCertificate × Nat × Nat :=
  entries.enum.foldl
    (fun acc ie =>
      match ParseLeafInput d ie.2.leafInput ie.2.extraData with
      | Except.error _ => (acc.1, acc.2.1, acc.2.2 + 1)
      | Except.ok cert =>
        let ms := Match cert keywords
        let table2 := ms.foldl
          (fun t m => insertMatch t (mkMatched cert m (batchStart + (ie.1 : Int)))) acc.1
        (table2, acc.2.1 + ms.length, acc.2.2))
    (table, 0, 0)

/-- Steps 5-7 of processBatch (monitor.go lines 253-296), shared by the
fresh-fetch and re-fetch paths: load keywords, parse and match, then
update the persisted state and clear last_error. -/
def processEntriesPhase (env : TickEnv) (st : MonitorState)
    (table : List MatchedCertificate) (entries : List RawEntry)
    (batchStart : Int) (hasNew : Bool) (endIdx treeSize : Int)
    (fetch : Option (Int × Int)) : TickResult :=
  match env.keywords with
  | Except.error e => ⟨setError st ("failed to load keywords: " ++ e), table, fetch⟩
  | Except.ok keywords =>
    if keywords.isEmpty then
      let st1 := if hasNew then updateState st endIdx treeSize entries.length 0 0 else st
      ⟨setError st1 "", table, fetch⟩
    else
      let r := matchEntries env.decoder entries batchStart keywords table
      let st1 :=
        if hasNew then updateState st endIdx treeSize entries.length r.2.1 r.2.2
        else rematchState st treeSize entries.length r.2.1 r.2.2
      ⟨setError st1 "", r.1, fetch⟩

/-- processBatch of monitor.go (lines 160-297) as a function of the
persisted state, the matches table and the outcome of the external
calls. -/
def processBatch (cfg : Config) (env : TickEnv) (st : MonitorState)
    (table : List MatchedCertificate) : TickResult :=
  match env.sth with
  | Except.error e => ⟨setError st ("failed to get STH: " ++ e), table, none⟩
  | Except.ok sth =>
    match env.progress with
    | Except.error e => ⟨setError st ("failed to get monitor state: " ++ e), table, none⟩
    | Except.ok _ =>
      let start := computeStart st.lastProcessedIndex sth.treeSize cfg.batchSize
      let endI := computeEnd start sth.treeSize cfg.batchSize
      if start ≤ endI then
        match env.entries with
        | Except.error e =>
          ⟨setError st ("failed to fetch entries: " ++ e), table, some (start, endI)⟩
        | Except.ok entries =>
          processEntriesPhase env st table entries start true endI sth.treeSize
            (some (start, endI))
      else if cfg.reprocessOnIdle then
        let rStart := max 0 (st.lastProcessedIndex - cfg.batchSize)
        let rEnd := st.lastProcessedIndex - 1
        if rStart > rEnd then ⟨refreshState st sth.treeSize, table, none⟩
        else
          match env.entries with
          | Except.error e =>
            ⟨setError st ("failed to re-fetch entries: " ++ e), table, some (rStart, rEnd)⟩
          | Except.ok entries =>
            processEntriesPhase env st table entries rStart false endI sth.treeSize
              (some (rStart, rEnd))
      else ⟨refreshState st sth.treeSize, table, none⟩

/-- Whether an external call failed. -/
def exceptErr {ε α : Type} : Except ε α → Bool
  | Except.error _ => true
  | Except.ok _ => false

/-- The control-flow points at which processBatch aborts early with
SetError: STH fetch, progress read, entries fetch (fresh or re-fetch),
keyword list. -/
def tickAborts (cfg : Config) (env : TickEnv) (st : MonitorState) : Bool :=
  match env.sth with
  | Except.error _ => true
  | Except.ok sth =>
    match env.progress with
    | Except.error _ => true
    | Except.ok _ =>
      let start := computeStart st.lastProcessedIndex sth.treeSize cfg.batchSize
      let endI := computeEnd start sth.treeSize cfg.batchSize
      if start ≤ endI then
        match env.entries with
        | Except.error _ => true
        | Except.ok _ => exceptErr env.keywords
      else if cfg.reprocessOnIdle then
        let rStart := max 0 (st.lastProcessedIndex - cfg.batchSize)
        let rEnd := st.lastProcessedIndex - 1
        if rStart > rEnd then false
        else
          match env.entries with
          | Except.error _ => true
          | Except.ok _ => exceptErr env.keywords
      else false

theorem phase_fetch (env : TickEnv) (st : MonitorState)
    (table : List MatchedCertificate) (entries : List RawEntry)
    (bs : Int) (hasNew : Bool) (endIdx ts : Int) (f : Option (Int × Int)) :
    (processEntriesPhase env st table entries bs hasNew endIdx ts f).fetchCall = f := by
  cases hk : env.keywords with
  | error e => simp [processEntriesPhase, hk]
  | ok kws =>
    by_cases he : kws.isEmpty <;>
      simp [processEntriesPhase, hk, he]

theorem phase_lpi (env : TickEnv) (st : MonitorState)
    (table : List MatchedCertificate) (entries : List RawEntry)
    (bs : Int) (hasNew : Bool) (endIdx ts : Int) (f : Option (Int × Int)) :
    (processEntriesPhase env st table entries bs hasNew endIdx ts f).state.lastProcessedIndex
      = match env.keywords with
        | Except.error _ => st.lastProcessedIndex
        | Except.ok _ => if hasNew then endIdx + 1 else st.lastProcessedIndex := by
  cases hk : env.keywords with
  | error e => simp [processEntriesPhase, hk, setError]
  | ok kws =>
    by_cases he : kws.isEmpty <;> by_cases hn : hasNew <;>
      simp [processEntriesPhase, hk, he, hn, setError, updateState, rematchState]

theorem phase_treeSize (env : TickEnv) (st : MonitorState)
    (table : List MatchedCertificate) (entries : List RawEntry)
    (bs : Int) (hasNew : Bool) (endIdx ts : Int) (f : Option (Int × Int)) :
    (processEntriesPhase env st table entries bs hasNew endIdx ts f).state.lastTreeSize
      = match env.keywords with
        | Except.error _ => st.lastTreeSize
        | Except.ok kws =>
          if hasNew then ts else if kws.isEmpty then st.lastTreeSize else ts := by
  cases hk : env.keywords with
  | error e => simp [processEntriesPhase, hk, setError]
  | ok kws =>
    by_cases he : kws.isEmpty <;> by_cases hn : hasNew <;>
      simp [processEntriesPhase, hk, he, hn, setError, updateState, rematchState]

theorem phase_lastError (env : TickEnv) (st : MonitorState)
    (table : List MatchedCertificate) (entries : List RawEntry)
    (bs : Int) (hasNew : Bool) (endIdx ts : Int) (f : Option (Int × Int)) :
    (processEntriesPhase env st table entries bs hasNew endIdx ts f).state.lastError
      = match env.keywords with
        | Except.error e => "failed to load keywords: " ++ e
        | Except.ok _ => "" := by
  cases hk : env.keywords with
  | error e => simp [processEntriesPhase, hk, setError]
  | ok kws =>
    by_cases he : kws.isEmpty <;> by_cases hn : hasNew <;>
      simp [processEntriesPhase, hk, he, hn, setError, updateState, rematchState]

theorem start_le_end_succ (lpi T B : Int)
    (h : computeStart lpi T B ≤ computeEnd (computeStart lpi T B) T B) :
    lpi ≤ computeEnd (computeStart lpi T B) T B + 1 := by
  by_cases h0 : lpi = 0
  · have hs : (0 : Int) ≤ computeStart lpi T B := by
      simp only [computeStart, h0, if_pos]
      exact le_max_left 0 (T - B)
    omega
  · have hs : computeStart lpi T B = lpi := by
      simp [computeStart, h0]
    omega

/-- C1: on a successful tick that finds new entries, GetEntries is called
with start equal to the stored index — or max 0 (treeSize - batchSize)
when the stored index is 0 — and end equal to
min (start + batchSize - 1) (treeSize - 1); afterwards the stored index
is end + 1 regardless of how many entries the call returned. -/
theorem processBatch_new_range (cfg : Config) (env : TickEnv) (st : MonitorState)
    (table : List MatchedCertificate) (sth : STH) (entries : List RawEntry)
    (kws : List Keyword)
    (hsth : env.sth = Except.ok sth) (hpr : env.progress = Except.ok ())
    (hent : env.entries = Except.ok entries) (hkw : env.keywords = Except.ok kws)
    (hnew : computeStart st.lastProcessedIndex sth.treeSize cfg.batchSize
        ≤ computeEnd (computeStart st.lastProcessedIndex sth.treeSize cfg.batchSize)
            sth.treeSize cfg.batchSize) :
    (processBatch cfg env st table).fetchCall
      = some (computeStart st.lastProcessedIndex sth.treeSize cfg.batchSize,
          computeEnd (computeStart st.lastProcessedIndex sth.treeSize cfg.batchSize)
            sth.treeSize cfg.batchSize)
    ∧ (processBatch cfg env st table).state.lastProcessedIndex
      = computeEnd (computeStart st.lastProcessedIndex sth.treeSize cfg.batchSize)
          sth.treeSize cfg.batchSize + 1 := by
  constructor
  · simp only [processBatch, hsth, hpr, hent]
    rw [if_pos hnew]
    exact phase_fetch env st table entries _ true _ sth.treeSize _
  · simp only [processBatch, hsth, hpr, hent]
    rw [if_pos hnew]
    rw [phase_lpi, hkw]
    simp

theorem processBatch_lpi_cases (cfg : Config) (env : TickEnv) (st : MonitorState)
    (table : List MatchedCertificate) :
    (processBatch cfg env st table).state.lastProcessedIndex = st.lastProcessedIndex
    ∨ (∃ sth : STH, env.sth = Except.ok sth
        ∧ computeStart st.lastProcessedIndex sth.treeSize cfg.batchSize
            ≤ computeEnd (computeStart st.lastProcessedIndex sth.treeSize cfg.batchSize)
                sth.treeSize cfg.batchSize
        ∧ (processBatch cfg env st table).state.lastProcessedIndex
            = computeEnd (computeStart st.lastProcessedIndex sth.treeSize cfg.batchSize)
                sth.treeSize cfg.batchSize + 1) := by
  cases hsth : env.sth with
  | error e => left; simp [processBatch, hsth, setError]
  | ok sth =>
    cases hpr : env.progress with
    | error e => left; simp [processBatch, hsth, hpr, setError]
    | ok u =>
      by_cases hnew : computeStart st.lastProcessedIndex sth.treeSize cfg.batchSize
          ≤ computeEnd (computeStart st.lastProcessedIndex sth.treeSize cfg.batchSize)
              sth.treeSize cfg.batchSize
      · cases hent : env.entries with
        | error e =>
          left
          simp only [processBatch, hsth, hpr, hent]
          rw [if_pos hnew]
          rfl
        | ok entries =>
          cases hkw : env.keywords with
          | error e =>
            left
            simp only [processBatch, hsth, hpr, hent]
            rw [if_pos hnew, phase_lpi, hkw]
          | ok kws =>
            right
            refine ⟨sth, rfl, hnew, ?_⟩
            simp only [processBatch, hsth, hpr, hent]
            rw [if_pos hnew, phase_lpi, hkw]
            simp
      · by_cases hrep : cfg.reprocessOnIdle = true
        · by_cases hemp : max 0 (st.lastProcessedIndex - cfg.batchSize)
              > st.lastProcessedIndex - 1
          · left
            simp only [processBatch, hsth, hpr]
            rw [if_neg hnew, if_pos hrep, if_pos hemp]
            rfl
          · cases hent : env.entries with
            | error e =>
              left
              simp only [processBatch, hsth, hpr, hent]
              rw [if_neg hnew, if_pos hrep, if_neg hemp]
              rfl
            | ok entries =>
              left
              simp only [processBatch, hsth, hpr, hent]
              rw [if_neg hnew, if_pos hrep, if_neg hemp, phase_lpi]
              cases hkw : env.keywords <;> simp [hkw]
        · left
          simp only [processBatch, hsth, hpr]
          rw [if_neg hnew, if_neg hrep]
          rfl

/-- C6: the stored index never decreases across ticks — any tick that
aborts at one of the four error points leaves last_processed_index
unchanged, any tick whose computed window is empty (the caught-up skip
and re-match paths, whatever their later outcome) leaves it unchanged,
and a fully successful tick with new entries sets it to end + 1, which
by the first clause is at least its previous value. -/
theorem lastProcessedIndex_monotone (cfg : Config) (env : TickEnv) (st : MonitorState)
    (table : List MatchedCertificate) :
    st.lastProcessedIndex ≤ (processBatch cfg env st table).state.lastProcessedIndex
    ∧ (tickAborts cfg env st = true →
        (processBatch cfg env st table).state.lastProcessedIndex = st.lastProcessedIndex)
    ∧ (∀ sth : STH, env.sth = Except.ok sth →
        ¬ computeStart st.lastProcessedIndex sth.treeSize cfg.batchSize
            ≤ computeEnd (computeStart st.lastProcessedIndex sth.treeSize cfg.batchSize)
                sth.treeSize cfg.batchSize →
        (processBatch cfg env st table).state.lastProcessedIndex = st.lastProcessedIndex)
    ∧ (∀ (sth : STH) (entries : List RawEntry) (kws : List Keyword),
        env.sth = Except.ok sth → env.progress = Except.ok () →
        env.entries = Except.ok entries → env.keywords = Except.ok kws →
        computeStart st.lastProcessedIndex sth.treeSize cfg.batchSize
            ≤ computeEnd (computeStart st.lastProcessedIndex sth.treeSize cfg.batchSize)
                sth.treeSize cfg.batchSize →
        (processBatch cfg env st table).state.lastProcessedIndex
            = computeEnd (computeStart st.lastProcessedIndex sth.treeSize cfg.batchSize)
                sth.treeSize cfg.batchSize + 1) := by
  cases hsth : env.sth with
  | error e =>
    have hl : (processBatch cfg env st table).state.lastProcessedIndex
        = st.lastProcessedIndex := by
      simp [processBatch, hsth, setError]
    refine ⟨le_of_eq hl.symm, fun _ => hl, ?_, ?_⟩
    · intro sth' hsth' _
      exact Except.noConfusion hsth'
    · intro sth' entries' kws' h1 h2 h3 h4 h5
      exact Except.noConfusion h1
  | ok sth =>
    cases hpr : env.progress with
    | error e =>
      have hl : (processBatch cfg env st table).state.lastProcessedIndex
          = st.lastProcessedIndex := by
        simp [processBatch, hsth, hpr, setError]
      refine ⟨le_of_eq hl.symm, fun _ => hl, fun sth' hsth' hnot => hl, ?_⟩
      intro sth' entries' kws' h1 h2 h3 h4 h5
      exact Except.noConfusion h2
    | ok u =>
      by_cases hnew : computeStart st.lastProcessedIndex sth.treeSize cfg.batchSize
          ≤ computeEnd (computeStart st.lastProcessedIndex sth.treeSize cfg.batchSize)
              sth.treeSize cfg.batchSize
      · cases hent : env.entries with
        | error e =>
          have hl : (processBatch cfg env st table).state.lastProcessedIndex
              = st.lastProcessedIndex := by
            simp only [processBatch, hsth, hpr, hent]
            rw [if_pos hnew]
            rfl
          refine ⟨le_of_eq hl.symm, fun _ => hl, fun sth' hsth' hnot => hl, ?_⟩
          intro sth' entries' kws' h1 h2 h3 h4 h5
          exact Except.noConfusion h3
        | ok entries =>
          cases hkw : env.keywords with
          | error e =>
            have hl : (processBatch cfg env st table).state.lastProcessedIndex
                = st.lastProcessedIndex := by
              simp only [processBatch, hsth, hpr, hent]
              rw [if_pos hnew, phase_lpi, hkw]
            refine ⟨le_of_eq hl.symm, fun _ => hl, fun sth' hsth' hnot => hl, ?_⟩
            intro sth' entries' kws' h1 h2 h3 h4 h5
            exact Except.noConfusion h4
          | ok kws =>
            have hl : (processBatch cfg env st table).state.lastProcessedIndex
                = computeEnd (computeStart st.lastProcessedIndex sth.treeSize cfg.batchSize)
                    sth.treeSize cfg.batchSize + 1 := by
              simp only [processBatch, hsth, hpr, hent]
              rw [if_pos hnew, phase_lpi, hkw]
              simp
            have hab : tickAborts cfg env st = false := by
              simp only [tickAborts, hsth, hpr, hent]
              rw [if_pos hnew]
              simp [exceptErr, hkw]
            refine ⟨?_, ?_, ?_, ?_⟩
            · rw [hl]
              exact start_le_end_succ st.lastProcessedIndex sth.treeSize cfg.batchSize hnew
            · intro habs
              exact absurd habs (by rw [hab]; simp)
            · intro sth' hsth' hnot
              injection hsth' with hx
              subst hx
              exact absurd hnew hnot
            · intro sth' entries' kws' h1 h2 h3 h4 h5
              injection h1 with hx
              subst hx
              exact hl
      · by_cases hrep : cfg.reprocessOnIdle = true
        · by_cases hemp : max 0 (st.lastProcessedIndex - cfg.batchSize)
              > st.lastProcessedIndex - 1
          · have hl : (processBatch cfg env st table).state.lastProcessedIndex
                = st.lastProcessedIndex := by
              simp only [processBatch, hsth, hpr]
              rw [if_neg hnew, if_pos hrep, if_pos hemp]
              rfl
            refine ⟨le_of_eq hl.symm, fun _ => hl, fun sth' hsth' hnot => hl, ?_⟩
            intro sth' entries' kws' h1 h2 h3 h4 h5
            injection h1 with hx
            subst hx
            exact absurd h5 hnew
          · cases hent : env.entries with
            | error e =>
              have hl : (processBatch cfg env st table).state.lastProcessedIndex
                  = st.lastProcessedIndex := by
                simp only [processBatch, hsth, hpr, hent]
                rw [if_neg hnew, if_pos hrep, if_neg hemp]
                rfl
              refine ⟨le_of_eq hl.symm, fun _ => hl, fun sth' hsth' hnot => hl, ?_⟩
              intro sth' entries' kws' h1 h2 h3 h4 h5
              exact Except.noConfusion h3
            | ok entries =>
              have hl : (processBatch cfg env st table).state.lastProcessedIndex
                  = st.lastProcessedIndex := by
                simp only [processBatch, hsth, hpr, hent]
                rw [if_neg hnew, if_pos hrep, if_neg hemp, phase_lpi]
                cases hkw : env.keywords <;> simp [hkw]
              refine ⟨le_of_eq hl.symm, fun _ => hl, fun sth' hsth' hnot => hl, ?_⟩
              intro sth' entries' kws' h1 h2 h3 h4 h5
              injection h1 with hx
              subst hx
              exact absurd h5 hnew
        · have hl : (processBatch cfg env st table).state.lastProcessedIndex
              = st.lastProcessedIndex := by
            simp only [processBatch, hsth, hpr]
            rw [if_neg hnew, if_neg hrep]
            rfl
          refine ⟨le_of_eq hl.symm, fun _ => hl, fun sth' hsth' hnot => hl, ?_⟩
          intro sth' entries' kws' h1 h2 h3 h4 h5
          injection h1 with hx
          subst hx
          exact absurd h5 hnew

/-- C7: the invariant that the stored index does not exceed the stored
tree size is preserved by every tick, provided the log tree did not
shrink below the stored tree size: an advancing tick writes
end + 1 ≤ treeSize because end is clamped to treeSize - 1, and a
caught-up or re-match tick keeps the index while refreshing the stored
tree size to the newly observed one. -/
theorem index_le_treeSize (cfg : Config) (env : TickEnv) (st : MonitorState)
    (table : List MatchedCertificate)
    (hinv : st.lastProcessedIndex ≤ st.lastTreeSize)
    (hgrow : ∀ sth : STH, env.sth = Except.ok sth → st.lastTreeSize ≤ sth.treeSize) :
    (processBatch cfg env st table).state.lastProcessedIndex
      ≤ (processBatch cfg env st table).state.lastTreeSize := by
  cases hsth : env.sth with
  | error e => simp [processBatch, hsth, setError]; exact hinv
  | ok sth =>
    have hg : st.lastTreeSize ≤ sth.treeSize := hgrow sth hsth
    cases hpr : env.progress with
    | error e => simp [processBatch, hsth, hpr, setError]; exact hinv
    | ok u =>
      by_cases hnew : computeStart st.lastProcessedIndex sth.treeSize cfg.batchSize
          ≤ computeEnd (computeStart st.lastProcessedIndex sth.treeSize cfg.batchSize)
              sth.treeSize cfg.batchSize
      · cases hent : env.entries with
        | error e =>
          simp only [processBatch, hsth, hpr, hent]
          rw [if_pos hnew]
          simpa [setError] using hinv
        | ok entries =>
          simp only [processBatch, hsth, hpr, hent]
          rw [if_pos hnew, phase_lpi, phase_treeSize]
          cases hkw : env.keywords with
          | error e => simpa using hinv
          | ok kws =>
            simp only [if_pos]
            have hmin := min_le_right
              (computeStart st.lastProcessedIndex sth.treeSize cfg.batchSize
                + cfg.batchSize - 1) (sth.treeSize - 1)
            simp only [computeEnd]
            omega
      · by_cases hrep : cfg.reprocessOnIdle = true
        · by_cases hemp : max 0 (st.lastProcessedIndex - cfg.batchSize)
              > st.lastProcessedIndex - 1
          · simp only [processBatch, hsth, hpr]
            rw [if_neg hnew, if_pos hrep, if_pos hemp]
            simp only [refreshState]
            omega
          · cases hent : env.entries with
            | error e =>
              simp only [processBatch, hsth, hpr, hent]
              rw [if_neg hnew, if_pos hrep, if_neg hemp]
              simpa [setError] using hinv
            | ok entries =>
              simp only [processBatch, hsth, hpr, hent]
              rw [if_neg hnew, if_pos hrep, if_neg hemp, phase_lpi, phase_treeSize]
              cases hkw : env.keywords with
              | error e => simpa using hinv
              | ok kws =>
                by_cases he : kws.isEmpty <;> simp only [he, if_true, if_false] <;> simp <;> omega
        · simp only [processBatch, hsth, hpr]
          rw [if_neg hnew, if_neg hrep]
          simp only [refreshState]
          omega

theorem append_ne_empty (p m : String) (hp : p.length ≠ 0) : p ++ m ≠ "" := by
  intro h
  have h2 := congrArg String.length h
  have h0 : ("" : String).length = 0 := rfl
  rw [String.length_append, h0] at h2
  omega

/-- C8: after every tick the persisted last_error is empty exactly when
the tick did not abort; an aborting tick leaves a message naming the
failing phase (STH fetch, progress read, entries fetch or re-fetch, or
keyword list). -/
theorem lastError_reflects_abort (cfg : Config) (env : TickEnv) (st : MonitorState)
    (table : List MatchedCertificate) :
    ((processBatch cfg env st table).state.lastError = "" ↔ tickAborts cfg env st = false)
    ∧ (tickAborts cfg env st = true →
        ∃ msg : String,
          (processBatch cfg env st table).state.lastError = "failed to get STH: " ++ msg
          ∨ (processBatch cfg env st table).state.lastError
              = "failed to get monitor state: " ++ msg
          ∨ (processBatch cfg env st table).state.lastError
              = "failed to fetch entries: " ++ msg
          ∨ (processBatch cfg env st table).state.lastError
              = "failed to re-fetch entries: " ++ msg
          ∨ (processBatch cfg env st table).state.lastError
              = "failed to load keywords: " ++ msg) := by
  cases hsth : env.sth with
  | error e =>
    have herr : (processBatch cfg env st table).state.lastError
        = "failed to get STH: " ++ e := by
      simp [processBatch, hsth, setError]
    have hab : tickAborts cfg env st = true := by
      simp [tickAborts, hsth]
    refine ⟨iff_of_false (by rw [herr]; exact append_ne_empty _ _ (by decide))
      (by rw [hab]; simp), fun _ => ⟨e, Or.inl herr⟩⟩
  | ok sth =>
    cases hpr : env.progress with
    | error e =>
      have herr : (processBatch cfg env st table).state.lastError
          = "failed to get monitor state: " ++ e := by
        simp [processBatch, hsth, hpr, setError]
      have hab : tickAborts cfg env st = true := by
        simp [tickAborts, hsth, hpr]
      refine ⟨iff_of_false (by rw [herr]; exact append_ne_empty _ _ (by decide))
        (by rw [hab]; simp), fun _ => ⟨e, Or.inr (Or.inl herr)⟩⟩
    | ok u =>
      by_cases hnew : computeStart st.lastProcessedIndex sth.treeSize cfg.batchSize
          ≤ computeEnd (computeStart st.lastProcessedIndex sth.treeSize cfg.batchSize)
              sth.treeSize cfg.batchSize
      · cases hent : env.entries with
        | error e =>
          have herr : (processBatch cfg env st table).state.lastError
              = "failed to fetch entries: " ++ e := by
            simp only [processBatch, hsth, hpr, hent]
            rw [if_pos hnew]
            rfl
          have hab : tickAborts cfg env st = true := by
            simp only [tickAborts, hsth, hpr, hent]
            rw [if_pos hnew]
          refine ⟨iff_of_false (by rw [herr]; exact append_ne_empty _ _ (by decide))
            (by rw [hab]; simp), fun _ => ⟨e, Or.inr (Or.inr (Or.inl herr))⟩⟩
        | ok entries =>
          cases hkw : env.keywords with
          | error e =>
            have herr : (processBatch cfg env st table).state.lastError
                = "failed to load keywords: " ++ e := by
              simp only [processBatch, hsth, hpr, hent]
              rw [if_pos hnew, phase_lastError, hkw]
            have hab : tickAborts cfg env st = true := by
              simp only [tickAborts, hsth, hpr, hent]
              rw [if_pos hnew]
              simp [exceptErr, hkw]
            refine ⟨iff_of_false (by rw [herr]; exact append_ne_empty _ _ (by decide))
              (by rw [hab]; simp),
              fun _ => ⟨e, Or.inr (Or.inr (Or.inr (Or.inr herr)))⟩⟩
          | ok kws =>
            have herr : (processBatch cfg env st table).state.lastError = "" := by
              simp only [processBatch, hsth, hpr, hent]
              rw [if_pos hnew, phase_lastError, hkw]
            have hab : tickAborts cfg env st = false := by
              simp only [tickAborts, hsth, hpr, hent]
              rw [if_pos hnew]
              simp [exceptErr, hkw]
            exact ⟨iff_of_true herr hab, fun habs => absurd habs (by rw [hab]; simp)⟩
      · by_cases hrep : cfg.reprocessOnIdle = true
        · by_cases hemp : max 0 (st.lastProcessedIndex - cfg.batchSize)
              > st.lastProcessedIndex - 1
          · have herr : (processBatch cfg env st table).state.lastError = "" := by
              simp only [processBatch, hsth, hpr]
              rw [if_neg hnew, if_pos hrep, if_pos hemp]
              rfl
            have hab : tickAborts cfg env st = false := by
              simp only [tickAborts, hsth, hpr]
              rw [if_neg hnew, if_pos hrep, if_pos hemp]
            exact ⟨iff_of_true herr hab, fun habs => absurd habs (by rw [hab]; simp)⟩
          · cases hent : env.entries with
            | error e =>
              have herr : (processBatch cfg env st table).state.lastError
                  = "failed to re-fetch entries: " ++ e := by
                simp only [processBatch, hsth, hpr, hent]
                rw [if_neg hnew, if_pos hrep, if_neg hemp]
                rfl
              have hab : tickAborts cfg env st = true := by
                simp only [tickAborts, hsth, hpr, hent]
                rw [if_neg hnew, if_pos hrep, if_neg hemp]
              refine ⟨iff_of_false (by rw [herr]; exact append_ne_empty _ _ (by decide))
                (by rw [hab]; simp),
                fun _ => ⟨e, Or.inr (Or.inr (Or.inr (Or.inl herr)))⟩⟩
            | ok entries =>
              cases hkw : env.keywords with
              | error e =>
                have herr : (processBatch cfg env st table).state.lastError
                    = "failed to load keywords: " ++ e := by
                  simp only [processBatch, hsth, hpr, hent]
                  rw [if_neg hnew, if_pos hrep, if_neg hemp, phase_lastError, hkw]
                have hab : tickAborts cfg env st = true := by
                  simp only [tickAborts, hsth, hpr, hent]
                  rw [if_neg hnew, if_pos hrep, if_neg hemp]
                  simp [exceptErr, hkw]
                refine ⟨iff_of_false (by rw [herr]; exact append_ne_empty _ _ (by decide))
                  (by rw [hab]; simp),
                  fun _ => ⟨e, Or.inr (Or.inr (Or.inr (Or.inr herr)))⟩⟩
              | ok kws =>
                have herr : (processBatch cfg env st table).state.lastError = "" := by
                  simp only [processBatch, hsth, hpr, hent]
                  rw [if_neg hnew, if_pos hrep, if_neg hemp, phase_lastError, hkw]
                have hab : tickAborts cfg env st = false := by
                  simp only [tickAborts, hsth, hpr, hent]
                  rw [if_neg hnew, if_pos hrep, if_neg hemp]
                  simp [exceptErr, hkw]
                exact ⟨iff_of_true herr hab, fun habs => absurd habs (by rw [hab]; simp)⟩
        · have herr : (processBatch cfg env st table).state.lastError = "" := by
            simp only [processBatch, hsth, hpr]
            rw [if_neg hnew, if_neg hrep]
            rfl
          have hab : tickAborts cfg env st = false := by
            simp only [tickAborts, hsth, hpr]
            rw [if_neg hnew, if_neg hrep]
          exact ⟨iff_of_true herr hab, fun habs => absurd habs (by rw [hab]; simp)⟩

theorem insertMatch_self (t : List MatchedCertificate) (c : MatchedCertificate) :
    insertMatch (insertMatch t c) c = insertMatch t c := by
  by_cases h : t.any
      (fun r => r.serialNumber == c.serialNumber && r.keywordID == c.keywordID)
  · simp [insertMatch, h]
  · simp [insertMatch, h, List.any_append]

theorem insertMatch_iterate_succ (m : Nat) (t : List MatchedCertificate)
    (c : MatchedCertificate) :
    (fun x => insertMatch x c)^[m + 1] t = insertMatch t c := by
  induction m with
  | zero => simp
  | succ k ih =>
    rw [Function.iterate_succ_apply' (fun x => insertMatch x c) (k + 1) t, ih]
    exact insertMatch_self t c

theorem pairCount_insert_le (t : List MatchedCertificate) (c : MatchedCertificate)
    (s : GoStr) (kid : Int) (h : pairCount t s kid ≤ 1) :
    pairCount (insertMatch t c) s kid ≤ 1 := by
  by_cases hx : t.any
      (fun r => r.serialNumber == c.serialNumber && r.keywordID == c.keywordID)
  · simpa [insertMatch, hx] using h
  · simp only [insertMatch, hx, if_neg, Bool.false_eq_true, not_false_iff]
    rw [pairCount, List.filter_append, List.length_append]
    by_cases hc : (c.serialNumber == s && c.keywordID == kid) = true
    · rw [Bool.and_eq_true, beq_iff_eq, beq_iff_eq] at hc
      obtain ⟨hs, hk⟩ := hc
      subst hs
      subst hk
      have hnil : t.filter
          (fun r => r.serialNumber == c.serialNumber && r.keywordID == c.keywordID) = [] := by
        rw [List.filter_eq_nil_iff]
        intro r hr
        intro hcontra
        rw [List.any_eq_true] at hx
        exact hx ⟨r, hr, hcontra⟩
      rw [hnil]
      simp
    · have : List.filter (fun r => r.serialNumber == s && r.keywordID == kid) [c] = [] := by
        simp only [List.filter, hc]
      rw [this]
      simpa using h

/-- C5: inserting the same matched certificate n times (n at least 1)
leaves the matches table exactly as after the first insert — a repeat
insert of an existing (serial, keyword) pair is a no-op that still
returns ok — and insertion preserves the invariant that at most one row
per (serial, keyword) pair exists. -/
theorem insertMatch_idem (n : Nat) (hn : 1 ≤ n) (table : List MatchedCertificate)
    (c : MatchedCertificate) :
    (fun t => insertMatch t c)^[n] table = insertMatch table c
    ∧ ∀ s kid, pairCount table s kid ≤ 1 → pairCount (insertMatch table c) s kid ≤ 1 := by
  obtain ⟨m, rfl⟩ : ∃ m, n = m + 1 := ⟨n - 1, by omega⟩
  exact ⟨insertMatch_iterate_succ m table c,
    fun s kid h => pairCount_insert_le table c s kid h⟩

/-- Matched certificate used by witnesses. -/
def wMatched : MatchedCertificate where
  serialNumber := ['0', '1']
  commonName := ['a']
  sans := []
  issuer := []
  notBefore := 0
  notAfter := 0
  keywordID := 1
  matchedDomain := ['a']
  ctLogIndex := 7

theorem insertMatch_idem_witness :
    (fun t => insertMatch t wMatched)^[3] [] = insertMatch [] wMatched :=
  (insertMatch_idem 3 (by decide) [] wMatched).1

/-! ## Worker lifecycle (monitor.go Start, lines 82-101, and run,
lines 150-157) -/

/-- A cancellation scope, modelled by the list of cancel tokens whose
firing cancels it: a context carries the tokens of all the WithCancel
ancestors it was derived from. -/
def Ctx : Type := List Nat

/-- context.Background: cancelled by nothing. -/
def backgroundCtx : Ctx := []

/-- context.WithCancel: the child is cancelled by its own fresh token and
by everything that cancels the parent. -/
def withCancel (parent : Ctx) (tok : Nat) : Ctx := tok :: parent

/-- Whether a context is cancelled, given the set of fired tokens. -/
def ctxCanceled (c : Ctx) (fired : List Nat) : Bool :=
  c.any (fun t => fired.contains t)

/-- Line 90 of monitor.go: the worker context is derived from a fresh
root — context.WithCancel(context.Background()) — and not from the
context passed to Start, which is used only for the SetRunning write. -/
def startWorkerCtx (argCtx : Ctx) (tok : Nat) : Ctx :=
  withCancel backgroundCtx tok

/-- Lines 150-157 of monitor.go: the worker loop exits exactly when its
own context is done. -/
def workerLoopExits (monCtx : Ctx) (fired : List Nat) : Bool :=
  ctxCanceled monCtx fired

/-- C9: cancelling the context passed to Start never stops the worker
loop — the worker context is derived from a fresh root, so with the
Stop token not fired the loop keeps running even when the Start argument
context is fully cancelled, and firing the Stop token is what stops it. -/
theorem startCtx_survives_caller (argCtx : Ctx) (tok : Nat) (fired : List Nat)
    (hfresh : tok ∉ fired) (hc : ctxCanceled argCtx fired = true) :
    workerLoopExits (startWorkerCtx argCtx tok) fired = false
    ∧ workerLoopExits (startWorkerCtx argCtx tok) (tok :: fired) = true := by
  constructor
  · simp [workerLoopExits, startWorkerCtx, withCancel, backgroundCtx, ctxCanceled,
      hfresh]
  · simp [workerLoopExits, startWorkerCtx, withCancel, backgroundCtx, ctxCanceled]

theorem startCtx_survives_caller_witness :
    workerLoopExits (startWorkerCtx [1] 2) [1] = false
    ∧ workerLoopExits (startWorkerCtx [1] 2) (2 :: [1]) = true :=
  startCtx_survives_caller [1] 2 [1] (by decide) (by decide)

/-! ## Concrete tick fixtures for the witnesses -/

/-- STH with tree size 1000, as in the first-run scenario of the spec. -/
def wSTH : STH where
  treeSize := 1000
  timestamp := 0

/-- Fresh progress: stored index 0, as in the first-run scenario. -/
def wState0 : MonitorState where
  lastProcessedIndex := 0
  lastTreeSize := 0
  totalProcessed := 0
  certsInLastCycle := 0
  matchesInLastCycle := 0
  parseErrorsInLastCycle := 0
  isRunning := true
  lastError := "x"

/-- Environment in which every external call succeeds and the log
returns no entries at all. -/
def wEnv : TickEnv where
  sth := Except.ok wSTH
  progress := Except.ok ()
  entries := Except.ok []
  keywords := Except.ok []
  decoder := noCert

/-- Batch size 50, skip mode, as in the first-run scenario. -/
def wCfg : Config where
  batchSize := 50
  reprocessOnIdle := false

theorem processBatch_new_range_witness :
    (processBatch wCfg wEnv wState0 []).fetchCall = some (950, 999)
    ∧ (processBatch wCfg wEnv wState0 []).state.lastProcessedIndex = 1000 := by
  obtain ⟨h1, h2⟩ :=
    processBatch_new_range wCfg wEnv wState0 [] wSTH [] [] rfl rfl rfl rfl (by decide)
  constructor
  · rw [h1]
    decide
  · rw [h2]
    decide

theorem index_le_treeSize_witness :
    (processBatch wCfg wEnv wState0 []).state.lastProcessedIndex
      ≤ (processBatch wCfg wEnv wState0 []).state.lastTreeSize := by
  apply index_le_treeSize wCfg wEnv wState0 []
  · decide
  · intro sth h
    have h2 : Except.ok (ε := String) wSTH = Except.ok sth := h
    injection h2 with h3
    rw [← h3]
    decide

end SISAP
